import Mathlib

/-!
# Shallow embedding of the STF serialization core (src/stf/base.py)

This file embeds the parts of the Serialized Tree Format library that the
verified claims are about: the cursor-based `ByteStream`, the typed
read/write primitives, the convert/deconvert dispatch over the closed
family of convertible kinds, the `STFObject` header protocol, the generic
homogeneous array, and the file envelope.

Modelling conventions:
* A Python `bytearray` is a `List Nat` (each entry a byte value); the
  `ByteStream` couples it with the read cursor `pos`.
* Methods that mutate the stream are functions `ByteStream → α × ByteStream`;
  a raised exception is an `Except.error` in the first component, and the
  second component is the state the object was left in when the exception
  propagated (Python exceptions do not roll state back).
* `hashlib.sha256` is an external library primitive, not repository code,
  so it enters as an uninterpreted parameter `sha256 : List Nat → Nat`
  standing for the digest read as a big-endian integer; the repository's
  own folding of the digest to 64 bits is embedded faithfully.
* The UTF-8 codec (`str.encode` / `bytes.decode`) is likewise external and
  enters as parameters `encode : String → List Nat`, `decode : List Nat → String`.
* Python's recursion limit is modelled by an explicit `fuel` argument on
  the one recursive method (`read_str`); exhausting it is `recursionError`.
-/

/-- The exception kinds raised by the library (base.py lines 19-64), plus
Python's built-in `OverflowError` (raised by `int.to_bytes` when a value
does not fit the field) and `RecursionError`. -/
inductive STFError where
  | overRead
  | unboundString
  | magicNumber
  | version
  | invalidType
  | overflow
  | recursionError
deriving DecidableEq, Repr

-- Constants from `Configuration` (base.py lines 68-89).
namespace Configuration

def BOOL_LENGTH : Nat := 1
def METADATA_LENGTH : Nat := 3
def MAX_FIELD_SIZE : Nat := 4
def INT_SIZE : Nat := 8
def MAGIC : Nat := 0xDEADBEEF
def VERSION : Nat := 0x00000004

end Configuration

namespace Utility

/-- Embeds `Utility.mask_bits` (base.py line 98): `(1 << length) - 1`. -/
def mask_bits (length : Nat) : Nat := 2 ^ length - 1

/-- Embeds `Utility.version_validation` (base.py line 105): exact equality with
the version constant. -/
def version_validation (version : Nat) : Bool := version == Configuration.VERSION

end Utility

/-- The `byteorder` argument of `int.to_bytes` / `int.from_bytes`;
`Configuration.ENDIANNESS` is `big` and every call site uses the default. -/
inductive Byteorder where
  | little
  | big
deriving DecidableEq, Repr

/-- Big-endian fixed-width byte representation: the `length` base-256
digits of `value`, most significant first (the layout `int.to_bytes`
produces for values that fit). -/
def toBytesBE : Nat → Nat → List Nat
  | _, 0 => []
  | value, length + 1 => toBytesBE (value / 256) length ++ [value % 256]

/-- Big-endian `int.from_bytes` on unsigned bytes. -/
def fromBytesBE (bs : List Nat) : Nat := bs.foldl (fun acc b => acc * 256 + b) 0

/-- Embeds `int.to_bytes(length, byteorder)` for unsigned values: errors with
`OverflowError` when the value does not fit in `length` bytes. -/
def int_to_bytes (value length : Nat) (byteorder : Byteorder) : Except STFError (List Nat) :=
  if value < 256 ^ length then
    .ok (match byteorder with
      | .big => toBytesBE value length
      | .little => (toBytesBE value length).reverse)
  else .error .overflow

/-- Embeds `int.from_bytes(bytes, byteorder)` for unsigned bytes. -/
def int_from_bytes (bs : List Nat) (byteorder : Byteorder) : Nat :=
  match byteorder with
  | .big => fromBytesBE bs
  | .little => fromBytesBE bs.reverse

/-- The `ByteStream` class (base.py line 131): a growable byte sequence
plus the private read cursor `__position`. -/
structure ByteStream where
  data : List Nat
  pos : Nat
deriving DecidableEq, Repr

/-- Sequencing helper for stateful stream operations: propagate an
exception, otherwise continue with the result and the updated stream. -/
def stBind {α β : Type} (x : Except STFError α × ByteStream)
    (f : α → ByteStream → Except STFError β × ByteStream) :
    Except STFError β × ByteStream :=
  match x with
  | (.ok a, s) => f a s
  | (.error e, s) => (.error e, s)

namespace ByteStream

/-- Embeds `ByteStream.length` (base.py line 169): length of the underlying data. -/
def length (s : ByteStream) : Nat := s.data.length

/-- Embeds `ByteStream.remaining_length` (base.py line 176). -/
def remaining_length (s : ByteStream) : Nat := s.length - s.pos

/-- Embeds `ByteStream.read` (base.py lines 182-194): `length <= 0` returns an
empty stream; an over-read raises before the cursor is moved; otherwise
return the slice `self[pos : pos+length]` and advance the cursor. -/
def read (s : ByteStream) (length : Nat) : Except STFError (List Nat) × ByteStream :=
  if length ≤ 0 then (.ok [], s)
  else
    let new_position := s.pos + length
    if new_position > s.length then (.error .overRead, s)
    else (.ok ((s.data.drop s.pos).take length), { s with pos := new_position })

/-- Embeds `ByteStream.read_int` (base.py lines 196-205), unsigned (every call
site in the repository uses the default `signed=False`). -/
def read_int (s : ByteStream) (length : Nat)
    (byteorder : Byteorder) : Except STFError Nat × ByteStream :=
  stBind (s.read length) fun bs s => (.ok (int_from_bytes bs byteorder), s)

/-- Embeds `ByteStream.read_bool` (base.py lines 222-226): `bool(self.read(1))`.
Note the Python truthiness of a bytearray is non-emptiness, so the result
does not depend on the byte's value. -/
def read_bool (s : ByteStream) : Except STFError Bool × ByteStream :=
  stBind (s.read 1) fun bs s => (.ok (!bs.isEmpty), s)

/-- Embeds `ByteStream.write` (base.py lines 228-232): append, no cursor motion. -/
def write (s : ByteStream) (bs : List Nat) : ByteStream :=
  { s with data := s.data ++ bs }

/-- Embeds `ByteStream.write_int` (base.py lines 240-250). -/
def write_int (s : ByteStream) (value : Nat) (byteorder : Byteorder)
    (length : Nat) : Except STFError Unit × ByteStream :=
  match int_to_bytes value length byteorder with
  | .ok bs => (.ok (), s.write bs)
  | .error e => (.error e, s)

/-- Embeds `ByteStream.write_str` (base.py lines 252-263): append the terminator
character to the string when `zero_terminated`, then append its encoding. -/
def write_str (s : ByteStream) (value : String) (zero_terminated : Bool)
    (encode : String → List Nat) : ByteStream :=
  let value := if zero_terminated then value.push (Char.ofNat 0) else value
  s.write (encode value)

/-- Embeds `ByteStream.write_bool` (base.py lines 265-275): delegates to
`write_int` with the boolean's integer value. -/
def write_bool (s : ByteStream) (value : Bool)
    (length : Nat) (byteorder : Byteorder) :
    Except STFError Unit × ByteStream :=
  s.write_int (if value then 1 else 0) byteorder length

/-- Embeds `ByteStream.read_str` (base.py lines 207-220). With a positive length,
read and decode that many bytes. With length 0, locate the next zero byte
at or after the cursor (`STFUnboundStringException` when absent), read the
bytes before it through a recursive call, then consume the terminator.
The recursion is modelled with explicit fuel: when the terminator sits at
the cursor the recursive call repeats the same state, which in Python
runs into the interpreter's recursion limit (`RecursionError`). -/
def read_str (decode : List Nat → String) :
    Nat → Nat → ByteStream → Except STFError String × ByteStream
  | 0, _, s => (.error .recursionError, s)
  | fuel + 1, length, s =>
    if length > 0 then
      stBind (s.read length) fun bs s => (.ok (decode bs), s)
    else
      match (s.data.drop s.pos).findIdx? (fun b => b == 0) with
      | none => (.error .unboundString, s)
      | some zero_index =>
        stBind (read_str decode fuel zero_index s) fun result s =>
        stBind (s.read 1) fun _ s =>
        (.ok result, s)

/-- Embeds `ByteStream.hash` (base.py lines 277-286): the SHA-256 digest of the
buffer contents read as an integer, masked down to the low
`INT_SIZE * 8 = 64` bits. Masking with `mask_bits 64 = 2^64 - 1` keeps
the residue mod `2^64`. -/
def hash (sha256 : List Nat → Nat) (contents : List Nat) : Nat :=
  sha256 contents % (Utility.mask_bits (Configuration.INT_SIZE * 8) + 1)

end ByteStream

/-- The closed `Convertable` family (base.py line 126):
`Union[bool, int, str, STFObject]`. Composite (`STFObject`) items recurse
into their own `serialize`; the claims under verification only exercise
arrays of primitive elements, so the embedding carries the three
primitive kinds and models the one composite type, the homogeneous
array, by its own serialize/deserialize functions below. -/
inductive Convertable where
  | bool (b : Bool)
  | int (n : Nat)
  | str (s : String)
deriving DecidableEq, Repr

namespace Convertable

/-- Embeds `isinstance(item, int)`: in Python `bool` is a subclass of `int`, so
boolean items satisfy this check as well. -/
def isinstance_int : Convertable → Bool
  | .int _ => true
  | .bool _ => true
  | .str _ => false

/-- Embeds `isinstance(item, str)`. -/
def isinstance_str : Convertable → Bool
  | .str _ => true
  | _ => false

/-- Embeds `isinstance(item, bool)`. -/
def isinstance_bool : Convertable → Bool
  | .bool _ => true
  | _ => false

/-- The integer value Python passes to `write_int` for the item
(`int(True) = 1`, `int(False) = 0`); only meaningful on the branches
guarded by `isinstance_int`. -/
def toInt : Convertable → Nat
  | .int n => n
  | .bool b => if b then 1 else 0
  | .str _ => 0

end Convertable

/-- The primitive members of `ConvertableTypes` (base.py line 127), the
target kinds `deconvert` can be asked for. A composite target delegates
to that type's own `deserialize` (modelled by `STFArray.deserialize`
below), so only the primitive kinds appear here. -/
inductive ConvertableTypes where
  | int
  | str
  | bool
deriving DecidableEq, Repr

namespace ConvertableTypes

/-- Embeds `issubclass(target_type, int)`: Python's `bool` is a subclass of
`int`, so the `bool` target satisfies this check. -/
def issubclass_int : ConvertableTypes → Bool
  | .int => true
  | .bool => true
  | .str => false

/-- Embeds `issubclass(target_type, str)`. -/
def issubclass_str : ConvertableTypes → Bool
  | .str => true
  | _ => false

/-- Embeds `issubclass(target_type, bool)`. -/
def issubclass_bool : ConvertableTypes → Bool
  | .bool => true
  | _ => false

end ConvertableTypes

namespace ByteStream

/-- Embeds `ByteStream.convert` (base.py lines 288-304): write the item into a
fresh stream through the `isinstance` chain and return its bytes. The
`length` keyword argument forwarded by callers is modelled by
`lengthArg` (`none` when the caller passed no extra arguments); the
string writer takes its own defaults at the call sites the claims
exercise. The chain tests `int` before `bool`, exactly as the source
does, so boolean items are encoded by `write_int`. -/
def convert (item : Convertable) (lengthArg : Option Nat)
    (encode : String → List Nat) : Except STFError (List Nat) :=
  if item.isinstance_int then
    match int_to_bytes item.toInt (lengthArg.getD Configuration.INT_SIZE) .big with
    | .ok bs => .ok bs
    | .error e => .error e
  else if item.isinstance_str then
    .ok ((ByteStream.write_str ⟨[], 0⟩ ((match item with | .str v => v | _ => default)) true encode).data)
  else if item.isinstance_bool then
    match int_to_bytes item.toInt (lengthArg.getD Configuration.BOOL_LENGTH) .big with
    | .ok bs => .ok bs
    | .error e => .error e
  else .error .invalidType

/-- Embeds `ByteStream.deconvert` (base.py lines 306-318): branch on the
requested target kind through the `issubclass` chain and run the matching
reader. `int` is tested before `bool`, exactly as the source does, so a
boolean target is read by `read_int`. -/
def deconvert (s : ByteStream) (target_type : ConvertableTypes)
    (lengthArg : Option Nat) (decode : List Nat → String) (fuel : Nat) :
    Except STFError Convertable × ByteStream :=
  if target_type.issubclass_int then
    stBind (s.read_int (lengthArg.getD Configuration.INT_SIZE) .big) fun n s =>
      (.ok (.int n), s)
  else if target_type.issubclass_str then
    stBind (ByteStream.read_str decode fuel (lengthArg.getD 0) s) fun v s =>
      (.ok (.str v), s)
  else if target_type.issubclass_bool then
    stBind s.read_bool fun b s => (.ok (.bool b), s)
  else (.error .invalidType, s)

end ByteStream

/-- The `Header` named tuple (base.py lines 332-338). `metadata` is a
fresh stream (cursor 0), as produced by `ByteStream.read`. -/
structure Header where
  hash : Nat
  size : Nat
  metadata : ByteStream
deriving DecidableEq, Repr

namespace STFObject

/-- Embeds `STFObject.max_field_size` (base.py line 345). -/
def max_field_size : Nat := 4

/-- Embeds `STFObject.max_metadata_size` (base.py line 346). -/
def max_metadata_size : Nat := 3

/-- Embeds `STFObject.max_elem_field_width` lives on `STFArray` (base.py line 417). -/
def max_elem_field_width : Nat := 2

/-- Embeds `STFObject.header` (base.py lines 360-373), as a function of the
bytes the object's `data()` produced (remember: called with *no*
arguments) and of the deferred computation of `metadata()`. It writes
the content hash through `add_obj` (an 8-byte default-width integer),
then the data length in `max_field_size` bytes, and when `has_metadata`
is set the metadata length in `max_metadata_size` bytes followed by the
metadata bytes themselves. -/
def header (sha256 : List Nat → Nat) (mfs mms : Nat) (has_metadata : Bool)
    (dataBytes : List Nat) (metadata : Except STFError (List Nat))
    (encode : String → List Nat) : Except STFError (List Nat) :=
  match ByteStream.convert (.int (ByteStream.hash sha256 dataBytes)) none encode with
  | .error e => .error e
  | .ok hb =>
  match ByteStream.convert (.int dataBytes.length) (some mfs) encode with
  | .error e => .error e
  | .ok sb =>
  if has_metadata then
    match metadata with
    | .error e => .error e
    | .ok meta =>
    match ByteStream.convert (.int meta.length) (some mms) encode with
    | .error e => .error e
    | .ok mb => .ok (hb ++ sb ++ mb ++ meta)
  else .ok (hb ++ sb)

/-- Embeds `STFObject.read_header` (base.py lines 375-387): read the 8-byte
hash, the `max_field_size`-byte size, and — when the class declares
metadata — the `max_metadata_size`-byte metadata length followed by that
many metadata bytes, returned as a fresh stream. -/
def read_header (mfs mms : Nat) (has_metadata : Bool) (s : ByteStream) :
    Except STFError Header × ByteStream :=
  stBind (s.read_int Configuration.INT_SIZE .big) fun hashed s =>
  stBind (s.read_int mfs .big) fun size s =>
  if has_metadata then
    stBind (s.read_int mms .big) fun metadata_length s =>
    stBind (s.read metadata_length) fun metaBytes s =>
    (.ok ⟨hashed, size, ⟨metaBytes, 0⟩⟩, s)
  else (.ok ⟨hashed, size, ⟨[], 0⟩⟩, s)

end STFObject

namespace STFArray

/-- Embeds `STFArray.get_generic_content` for the integer-element instantiation
the claims exercise (the spec scenarios build arrays over integers). -/
def get_generic_content : ConvertableTypes := .int

/-- Embeds `STFArray.metadata` (base.py lines 453-459): the element count,
written through `add_obj` with `length=max_elem_field_width`. -/
def metadata (items : List Convertable) (encode : String → List Nat) :
    Except STFError (List Nat) :=
  ByteStream.convert (.int items.length) (some STFObject.max_elem_field_width) encode

/-- Embeds `STFArray.data` (base.py lines 444-451): the concatenation of
`convert(item, *args, **kwargs)` over the elements in order. -/
def data (lengthArg : Option Nat) (encode : String → List Nat) :
    List Convertable → Except STFError (List Nat)
  | [] => .ok []
  | item :: rest =>
    match ByteStream.convert item lengthArg encode with
    | .error e => .error e
    | .ok bs =>
    match data lengthArg encode rest with
    | .error e => .error e
    | .ok restBytes => .ok (bs ++ restBytes)

/-- Embeds `STFObject.serialize` for an `STFArray` (base.py lines 350-358):
`requires_header` and `has_metadata` are inherited as `True`, so the
result is `header()` followed by `data(*args, **kwargs)`. Note that
`header()` internally recomputes `data()` with no arguments. -/
def serialize (sha256 : List Nat → Nat) (lengthArg : Option Nat)
    (encode : String → List Nat) (items : List Convertable) :
    Except STFError (List Nat) :=
  match data none encode items with
  | .error e => .error e
  | .ok headerData =>
  match STFObject.header sha256 STFObject.max_field_size STFObject.max_metadata_size
      true headerData (metadata items encode) encode with
  | .error e => .error e
  | .ok hdr =>
  match data lengthArg encode items with
  | .error e => .error e
  | .ok payload => .ok (hdr ++ payload)

/-- The element loop of `STFArray.deserialize` (base.py lines 440-441):
`deconvert` the generic content type once per element, appending in
order. -/
def deserializeElems (lengthArg : Option Nat) (decode : List Nat → String)
    (fuel : Nat) : Nat → ByteStream → Except STFError (List Convertable) × ByteStream
  | 0, s => (.ok [], s)
  | n + 1, s =>
    stBind (s.deconvert get_generic_content lengthArg decode fuel) fun x s =>
    stBind (deserializeElems lengthArg decode fuel n s) fun xs s =>
    (.ok (x :: xs), s)

/-- Embeds `STFArray.deserialize` (base.py lines 432-442): read the header,
read the element count from the header's metadata stream with
`length=max_elem_field_width`, then loop exactly that many times. -/
def deserialize (lengthArg : Option Nat) (decode : List Nat → String)
    (fuel : Nat) (s : ByteStream) : Except STFError (List Convertable) × ByteStream :=
  stBind (STFObject.read_header STFObject.max_field_size STFObject.max_metadata_size true s)
    fun header s =>
  match header.metadata.read_int STFObject.max_elem_field_width .big with
  | (.error e, _) => (.error e, s)
  | (.ok num_elems, _) => deserializeElems lengthArg decode fuel num_elems s

end STFArray

-- `STFArray` is generic in its element kind: a concrete array type fixes
-- `T` and `get_generic_content` returns it. `STFArray` above embeds the
-- integer instantiation (the one the spec's scenarios construct);
-- `STFArrayStr` embeds the string instantiation `STFArray[str]`. The
-- serialization side (`STFArray.data` / `STFArray.serialize`) already
-- dispatches on the item itself, so it is shared by both.
namespace STFArrayStr

/-- Embeds `STFArray.get_generic_content` for a concrete `STFArray[str]`
array type: the string element kind. -/
def get_generic_content : ConvertableTypes := .str

/-- The element loop of `STFArray.deserialize` (base.py lines 440-441)
for the string-element instantiation: `deconvert` the string kind once
per element, appending in order. -/
def deserializeElems (lengthArg : Option Nat) (decode : List Nat → String)
    (fuel : Nat) : Nat → ByteStream → Except STFError (List Convertable) × ByteStream
  | 0, s => (.ok [], s)
  | n + 1, s =>
    stBind (s.deconvert get_generic_content lengthArg decode fuel) fun x s =>
    stBind (deserializeElems lengthArg decode fuel n s) fun xs s =>
    (.ok (x :: xs), s)

/-- Embeds `STFArray.deserialize` (base.py lines 432-442) for the
string-element instantiation: read the header, read the element count
from the header's metadata stream, then loop exactly that many times. -/
def deserialize (lengthArg : Option Nat) (decode : List Nat → String)
    (fuel : Nat) (s : ByteStream) : Except STFError (List Convertable) × ByteStream :=
  stBind (STFObject.read_header STFObject.max_field_size STFObject.max_metadata_size true s)
    fun header s =>
  match header.metadata.read_int STFObject.max_elem_field_width .big with
  | (.error e, _) => (.error e, s)
  | (.ok num_elems, _) => deserializeElems lengthArg decode fuel num_elems s

end STFArrayStr

namespace SerializedTreeFile

/-- Embeds `SerializedTreeFile.read` (base.py lines 499-510) on the bytes loaded
from the file: read the 4-byte magic, read the 4-byte version, then
check the magic (mismatch raises the magic-number error), then check the
version through `Utility.version_validation` (mismatch raises the
version error), and finally delegate to the root type's `deserialize`,
passed in here as a function. -/
def read {α : Type} (deserialize : ByteStream → Except STFError α × ByteStream)
    (fileBytes : List Nat) : Except STFError α × ByteStream :=
  stBind (ByteStream.read_int ⟨fileBytes, 0⟩ 4 .big) fun magic s =>
  stBind (s.read_int 4 .big) fun version s =>
  if magic ≠ Configuration.MAGIC then (.error .magicNumber, s)
  else if ¬ Utility.version_validation version then (.error .version, s)
  else deserialize s

end SerializedTreeFile

deriving instance DecidableEq for Except

/-- The byte shape of `STFArray.data` over integer elements: the
concatenation of the `L`-byte big-endian fields of the elements in
order. -/
def encodeInts (L : Nat) : List Nat → List Nat
  | [] => []
  | x :: xs => toBytesBE x L ++ encodeInts L xs

/-- Two streams whose cursors sit at the same offset over byte sequences
of the same length that agree from the cursor onward. Every stream
operation reads only at or after the cursor, so computations on such
streams produce the same results. -/
def ByteStream.sameTail (s1 s2 : ByteStream) : Prop :=
  s1.pos = s2.pos ∧ s1.data.length = s2.data.length ∧
    s1.data.drop s1.pos = s2.data.drop s2.pos

/-! ## Basic lemmas about the primitives -/

@[simp] theorem stBind_ok {α β : Type} (a : α) (s : ByteStream)
    (f : α → ByteStream → Except STFError β × ByteStream) :
    stBind (.ok a, s) f = f a s := rfl

@[simp] theorem stBind_error {α β : Type} (e : STFError) (s : ByteStream)
    (f : α → ByteStream → Except STFError β × ByteStream) :
    stBind (.error e, s) f = (.error e, s) := rfl

@[simp] theorem toBytesBE_length (value length : Nat) :
    (toBytesBE value length).length = length := by
  induction length generalizing value with
  | zero => rfl
  | succ n ih => simp [toBytesBE, ih]

theorem fromBytesBE_snoc (l : List Nat) (b : Nat) :
    fromBytesBE (l ++ [b]) = fromBytesBE l * 256 + b := by
  simp [fromBytesBE, List.foldl_append]

theorem fromBytesBE_toBytesBE {value length : Nat} (h : value < 256 ^ length) :
    fromBytesBE (toBytesBE value length) = value := by
  induction length generalizing value with
  | zero =>
    simp only [toBytesBE, fromBytesBE, List.foldl_nil]
    omega
  | succ n ih =>
    have hdiv : value / 256 < 256 ^ n := by
      rw [Nat.div_lt_iff_lt_mul (by norm_num)]
      calc value < 256 ^ (n + 1) := h
        _ = 256 ^ n * 256 := by rw [pow_succ]
    rw [toBytesBE, fromBytesBE_snoc, ih hdiv]
    omega

/-- Reading exactly the block `mid` sitting at the cursor returns `mid`
and advances the cursor past it. -/
theorem ByteStream.read_append (front mid rest : List Nat) :
    ByteStream.read ⟨front ++ (mid ++ rest), front.length⟩ mid.length =
      (.ok mid, ⟨front ++ (mid ++ rest), front.length + mid.length⟩) := by
  by_cases hm : mid = []
  · subst hm; simp [ByteStream.read]
  · have hlen : 0 < mid.length := List.length_pos.mpr hm
    have hgt : ¬ (front.length + mid.length > (front ++ (mid ++ rest)).length) := by
      simp only [List.length_append]; omega
    simp only [ByteStream.read, ByteStream.length]
    rw [if_neg (by omega), if_neg hgt]
    simp only [List.drop_left, List.take_left]

/-- Reading back a `length`-byte big-endian field written for a value
that fits returns that value. -/
theorem ByteStream.read_int_append (front rest : List Nat) {value L : Nat}
    (h : value < 256 ^ L) :
    ByteStream.read_int ⟨front ++ (toBytesBE value L ++ rest), front.length⟩ L .big =
      (.ok value, ⟨front ++ (toBytesBE value L ++ rest), front.length + L⟩) := by
  have hr := ByteStream.read_append front (toBytesBE value L) rest
  rw [toBytesBE_length] at hr
  simp only [ByteStream.read_int, hr, stBind_ok, int_from_bytes,
    fromBytesBE_toBytesBE h]

/-- In-bounds read: returns the slice and advances the cursor. -/
theorem ByteStream.read_of_le (bs : List Nat) (p n : Nat) (h : p + n ≤ bs.length) :
    ByteStream.read ⟨bs, p⟩ n = (.ok ((bs.drop p).take n), ⟨bs, p + n⟩) := by
  by_cases hn : n = 0
  · subst hn; simp [ByteStream.read]
  · simp only [ByteStream.read, ByteStream.length]
    rw [if_neg (by omega), if_neg (by omega)]

/-- Reading a block that sits exactly at the cursor returns it whole. -/
theorem ByteStream.read_block (bs block rest : List Nat) (p : Nat)
    (hsplit : bs.drop p = block ++ rest) :
    ByteStream.read ⟨bs, p⟩ block.length = (.ok block, ⟨bs, p + block.length⟩) := by
  have hlen : bs.length - p = block.length + rest.length := by
    have hc := congrArg List.length hsplit
    simpa using hc
  by_cases hb : block = []
  · subst hb; simp [ByteStream.read]
  · have hpos : 0 < block.length := List.length_pos.mpr hb
    have hle : p + block.length ≤ bs.length := by omega
    rw [ByteStream.read_of_le bs p block.length hle, hsplit, List.take_left]

/-- Reading back an integer field that sits at the cursor. -/
theorem ByteStream.read_int_block (bs rest : List Nat) {value L : Nat} (p : Nat)
    (h : value < 256 ^ L)
    (hsplit : bs.drop p = toBytesBE value L ++ rest) :
    ByteStream.read_int ⟨bs, p⟩ L .big = (.ok value, ⟨bs, p + L⟩) := by
  have hr := ByteStream.read_block bs (toBytesBE value L) rest p hsplit
  rw [toBytesBE_length] at hr
  simp only [ByteStream.read_int, hr, stBind_ok, int_from_bytes, fromBytesBE_toBytesBE h]

/-- The folded content hash always fits the 8-byte field `header` writes
it into. -/
theorem ByteStream.hash_lt (sha256 : List Nat → Nat) (bs : List Nat) :
    ByteStream.hash sha256 bs < 256 ^ Configuration.INT_SIZE := by
  have h2 : Utility.mask_bits (Configuration.INT_SIZE * 8) + 1 = 256 ^ Configuration.INT_SIZE := by
    norm_num [Utility.mask_bits, Configuration.INT_SIZE]
  rw [ByteStream.hash, h2]
  exact Nat.mod_lt _ (by norm_num [Configuration.INT_SIZE])

/-! ## C10 -/

/-- C10: for every `ByteStream`, `read(0)` returns an empty buffer and
leaves the cursor where it was — it does not mean "read the rest of the
remaining bytes". -/
theorem read_zero_returns_empty (s : ByteStream) : s.read 0 = (.ok [], s) := by
  simp [ByteStream.read]

/-! ## C7 -/

/-- C7: a positive read that exceeds the bytes remaining past the cursor
raises the over-read error and returns no partial result; the stream's
byte contents and cursor are exactly as before. -/
theorem read_over_read_errors (s : ByteStream) (n : Nat) (h1 : 0 < n)
    (h2 : s.remaining_length < n) :
    s.read n = (.error .overRead, s) := by
  simp only [ByteStream.remaining_length, ByteStream.length] at h2
  simp only [ByteStream.read, ByteStream.length]
  rw [if_neg (by omega), if_pos (by omega)]

/-- Witness for C7: a buffer of length 3 read with `read(5)`. -/
theorem read_over_read_errors_witness :
    0 < 5 ∧ (⟨[1, 2, 3], 0⟩ : ByteStream).remaining_length < 5 ∧
    ByteStream.read ⟨[1, 2, 3], 0⟩ 5 = (.error .overRead, ⟨[1, 2, 3], 0⟩) :=
  ⟨by decide, by decide, read_over_read_errors ⟨[1, 2, 3], 0⟩ 5 (by decide) (by decide)⟩

/-! ## C4 -/

/-- C4 (code evaluation): `read_bool` over the one byte `write_bool(b)`
produced returns `True` for **every** boolean `b`, because
`bool(self.read(1))` tests the truthiness of a one-byte bytearray, which
is always non-empty. The cursor does advance exactly one byte, but the
round trip returns `true` at `b = false`. -/
theorem write_bool_read_bool_always_true (b : Bool) :
    stBind (ByteStream.write_bool ⟨[], 0⟩ b Configuration.BOOL_LENGTH .big)
      (fun _ s => s.read_bool) =
      (.ok true, ⟨[if b then 1 else 0], 1⟩) := by
  cases b <;> decide

/-! ## C5 -/

/-- C5 (code evaluation): because Python's `bool` is a subclass of `int`,
the `isinstance(item, int)` / `issubclass(target_type, int)` branches
capture booleans before the boolean branches are reached. `convert` on
the boolean `True` therefore emits the 8-byte default `write_int`
encoding (not `write_bool`'s single byte), and `deconvert` asked for a
boolean reads an 8-byte integer via `read_int` (not `read_bool`),
consuming 8 bytes and returning an integer. -/
theorem convert_deconvert_bool_take_int_branch :
    ByteStream.convert (.bool true) none (fun _ => []) =
      .ok [0, 0, 0, 0, 0, 0, 0, 1] ∧
    ByteStream.deconvert ⟨[1, 0, 0, 0, 0, 0, 0, 0, 9], 0⟩ .bool none
        (fun _ => ("")) 0 =
      (.ok (.int 72057594037927936), ⟨[1, 0, 0, 0, 0, 0, 0, 0, 9], 8⟩) := by
  exact ⟨by decide, by decide⟩

/-! ## C3 -/

/-- Counterexample to C3 as stated: a 4-byte input whose first 4 bytes
are not the magic constant. `SerializedTreeFile.read` reads the magic,
then attempts to read the 4-byte version field *before* comparing the
magic, so this input raises the over-read error rather than the
magic-number error. -/
theorem stf_read_bad_magic_short_input_over_reads :
    int_from_bytes ([0, 0, 0, 0].take 4) .big ≠ Configuration.MAGIC ∧
    (SerializedTreeFile.read (STFArray.deserialize none (fun _ => ("")) 0)
        [0, 0, 0, 0]).1 = .error .overRead ∧
    STFError.overRead ≠ STFError.magicNumber := by
  refine ⟨by decide, by decide, by decide⟩

/-- C3 amended: on inputs of at least 8 bytes the claimed errors are
raised — bad magic yields the magic-number error (though the version
field has already been read, no root-object byte is consumed), and
correct magic with a wrong version yields the version error. -/
theorem stf_read_envelope_errors {α : Type}
    (dfn : ByteStream → Except STFError α × ByteStream)
    (bs1 bs2 : List Nat) (h1 : 8 ≤ bs1.length)
    (hm1 : int_from_bytes (bs1.take 4) .big ≠ Configuration.MAGIC)
    (h2 : 8 ≤ bs2.length)
    (hm2 : int_from_bytes (bs2.take 4) .big = Configuration.MAGIC)
    (hv2 : int_from_bytes ((bs2.drop 4).take 4) .big ≠ Configuration.VERSION) :
    SerializedTreeFile.read dfn bs1 = (.error .magicNumber, ⟨bs1, 8⟩) ∧
    SerializedTreeFile.read dfn bs2 = (.error .version, ⟨bs2, 8⟩) := by
  constructor
  · simp only [SerializedTreeFile.read, ByteStream.read_int,
      ByteStream.read_of_le bs1 0 4 (by omega), List.drop_zero, stBind_ok,
      ByteStream.read_of_le bs1 4 4 (by omega)]
    rw [if_pos hm1]
  · simp only [SerializedTreeFile.read, ByteStream.read_int,
      ByteStream.read_of_le bs2 0 4 (by omega), List.drop_zero, stBind_ok,
      ByteStream.read_of_le bs2 4 4 (by omega)]
    rw [if_neg (by simp [hm2]), if_pos (by simp [Utility.version_validation, hv2])]

/-- Witness for the amended C3 at concrete 8- and 10-byte inputs. -/
theorem stf_read_envelope_errors_witness :
    SerializedTreeFile.read (STFArray.deserialize none (fun _ => ("")) 0)
        [1, 2, 3, 4, 0, 0, 0, 4] = (.error .magicNumber, ⟨[1, 2, 3, 4, 0, 0, 0, 4], 8⟩) ∧
    SerializedTreeFile.read (STFArray.deserialize none (fun _ => ("")) 0)
        [0xDE, 0xAD, 0xBE, 0xEF, 0, 0, 0, 5, 7, 7] =
      (.error .version, ⟨[0xDE, 0xAD, 0xBE, 0xEF, 0, 0, 0, 5, 7, 7], 8⟩) :=
  stf_read_envelope_errors (STFArray.deserialize none (fun _ => ("")) 0)
    [1, 2, 3, 4, 0, 0, 0, 4] [0xDE, 0xAD, 0xBE, 0xEF, 0, 0, 0, 5, 7, 7]
    (by decide) (by decide) (by decide) (by decide) (by decide)

/-! ## C6 -/

/-- C6 (code evaluation at the failing input `s = ""`): after
`write_text("")` the terminator sits exactly at the cursor, so the
zero-byte scan in `read_text()` finds `zero_index = 0` and the method
calls itself with length 0 on unchanged state — an infinite recursion.
Whatever recursion budget the interpreter grants, the call exhausts it
and dies with `RecursionError` instead of returning the empty string;
for every fuel value the model returns the recursion error and the
stream is untouched. -/
theorem read_str_empty_string_diverges (encode : String → List Nat)
    (decode : List Nat → String) (fuel : Nat)
    (henc : encode (("").push (Char.ofNat 0)) = [0]) :
    ByteStream.read_str decode fuel 0
        (ByteStream.write_str ⟨[], 0⟩ ("") true encode) =
      (.error .recursionError, ⟨[0], 0⟩) := by
  have hs : ByteStream.write_str ⟨[], 0⟩ ("") true encode = ⟨[0], 0⟩ := by
    simp [ByteStream.write_str, ByteStream.write, henc]
  rw [hs]
  induction fuel with
  | zero => rfl
  | succ n ih =>
    have hstep : ByteStream.read_str decode (n + 1) 0 ⟨[0], 0⟩ =
        stBind (ByteStream.read_str decode n 0 ⟨[0], 0⟩) (fun result s =>
          stBind (s.read 1) fun _ s => (.ok result, s)) := rfl
    rw [hstep, ih]
    rfl

/-- Witness for C6's failing input with a concrete codec and Python's
default recursion budget of 1000 frames. -/
theorem read_str_empty_string_diverges_witness :
    ByteStream.read_str (fun _ => ("")) 1000 0
        (ByteStream.write_str ⟨[], 0⟩ ("") true
          (fun v => v.data.map Char.toNat)) =
      (.error .recursionError, ⟨[0], 0⟩) :=
  read_str_empty_string_diverges (fun v => v.data.map Char.toNat)
    (fun _ => ("")) 1000 (by decide)

/-! ## Forward serialization lemmas -/

@[simp] theorem encodeInts_length (L : Nat) (xs : List Nat) :
    (encodeInts L xs).length = xs.length * L := by
  induction xs with
  | nil => simp [encodeInts]
  | cons x xs ih =>
    simp only [encodeInts, List.length_append, toBytesBE_length, ih, List.length_cons]
    ring

/-- Running `convert` on an integer item that fits the (defaulted) field width. -/
theorem ByteStream.convert_int_ok (v : Nat) (la : Option Nat)
    (encode : String → List Nat) (h : v < 256 ^ (la.getD Configuration.INT_SIZE)) :
    ByteStream.convert (.int v) la encode =
      .ok (toBytesBE v (la.getD Configuration.INT_SIZE)) := by
  simp [ByteStream.convert, Convertable.isinstance_int, Convertable.toInt,
    int_to_bytes, h]

/-- Running `STFArray.data` over integer elements that fit the field width is the
concatenation of their big-endian fields. -/
theorem STFArray.data_int_ok (la : Option Nat) (encode : String → List Nat)
    (xs : List Nat)
    (hfit : ∀ x ∈ xs, x < 256 ^ (la.getD Configuration.INT_SIZE)) :
    STFArray.data la encode (xs.map Convertable.int) =
      .ok (encodeInts (la.getD Configuration.INT_SIZE) xs) := by
  induction xs with
  | nil => rfl
  | cons x xs ih =>
    have hx : x < 256 ^ (la.getD Configuration.INT_SIZE) := hfit x (by simp)
    have hrest := ih (fun y hy => hfit y (by simp [hy]))
    simp only [List.map_cons, STFArray.data,
      ByteStream.convert_int_ok x la encode hx, hrest, encodeInts]

/-- Running `STFArray.metadata` gives the element count in the 2-byte count field. -/
theorem STFArray.metadata_ok (encode : String → List Nat) (xs : List Nat)
    (hcount : xs.length < 256 ^ 2) :
    STFArray.metadata (xs.map Convertable.int) encode =
      .ok (toBytesBE xs.length 2) := by
  have h := ByteStream.convert_int_ok (xs.map Convertable.int).length
    (some STFObject.max_elem_field_width) encode
    (by simpa [STFObject.max_elem_field_width] using hcount)
  simpa [STFArray.metadata, STFObject.max_elem_field_width] using h

/-- Forward evaluation of the header an `STFArray` over integers writes:
hash of the default-width `data()`, its length in the 4-byte size field,
then the 2-byte count block behind the 3-byte metadata-size field. -/
theorem STFArray.header_int_ok (sha256 : List Nat → Nat)
    (encode : String → List Nat) (xs : List Nat)
    (hsize : xs.length * 8 < 256 ^ 4) (hcount : xs.length < 256 ^ 2) :
    STFObject.header sha256 STFObject.max_field_size STFObject.max_metadata_size true
        (encodeInts 8 xs) (STFArray.metadata (xs.map Convertable.int) encode) encode =
      .ok (toBytesBE (ByteStream.hash sha256 (encodeInts 8 xs)) 8 ++
        (toBytesBE (xs.length * 8) 4 ++ (toBytesBE 2 3 ++ toBytesBE xs.length 2))) := by
  have h1 := ByteStream.convert_int_ok (ByteStream.hash sha256 (encodeInts 8 xs))
    none encode (by simpa using ByteStream.hash_lt sha256 (encodeInts 8 xs))
  have h2 := ByteStream.convert_int_ok (encodeInts 8 xs).length
    (some STFObject.max_field_size) encode
    (by simpa [STFObject.max_field_size] using hsize)
  have h3 := ByteStream.convert_int_ok (toBytesBE xs.length 2).length
    (some STFObject.max_metadata_size) encode
    (by simp [STFObject.max_metadata_size])
  simp only [STFObject.header, h1, h2, STFArray.metadata_ok encode xs hcount, h3,
    if_true]
  simp [STFObject.max_field_size, STFObject.max_metadata_size,
    Configuration.INT_SIZE, List.append_assoc]

/-- Forward evaluation of `STFArray.serialize` over integer elements.
The header is computed from `self.data()` *with no arguments* — the
8-byte default field width — while the payload that follows uses the
forwarded width, so the size field records `8 * count` and the hash is
taken over the default-width encoding. -/
theorem STFArray.serialize_int_ok (sha256 : List Nat → Nat) (la : Option Nat)
    (encode : String → List Nat) (xs : List Nat)
    (hfit8 : ∀ x ∈ xs, x < 256 ^ 8)
    (hfit : ∀ x ∈ xs, x < 256 ^ (la.getD Configuration.INT_SIZE))
    (hsize : xs.length * 8 < 256 ^ 4)
    (hcount : xs.length < 256 ^ 2) :
    STFArray.serialize sha256 la encode (xs.map Convertable.int) =
      .ok (toBytesBE (ByteStream.hash sha256 (encodeInts 8 xs)) 8 ++
        (toBytesBE (xs.length * 8) 4 ++ (toBytesBE 2 3 ++
        (toBytesBE xs.length 2 ++
         encodeInts (la.getD Configuration.INT_SIZE) xs)))) := by
  have hd0 : STFArray.data none encode (xs.map Convertable.int) =
      .ok (encodeInts 8 xs) := by
    simpa using STFArray.data_int_ok none encode xs (by simpa using hfit8)
  simp only [STFArray.serialize, hd0,
    STFArray.header_int_ok sha256 encode xs hsize hcount,
    STFArray.data_int_ok la encode xs hfit]
  simp [List.append_assoc]

/-! ## C2 -/

/-- C2 (code evaluation at the spec's end-to-end scenario): serializing
the integer array `[10, 20, 30]` with `length=1` forwarded produces
`ContentHash(8)` over the **24-byte default-width** `data()` encoding,
`ContentSize(4) = 24` (not 3), `MetadataSize(3) = 2`,
`ElementCount(2) = 3`, then the 1-byte-width payload `0x0A 0x14 0x1E`:
`header()` recomputes `self.data()` without the forwarded arguments. -/
theorem serialize_scenario_content_size_is_24 (sha256 : List Nat → Nat) :
    STFArray.serialize sha256 (some 1) (fun _ => [])
        ([10, 20, 30].map Convertable.int) =
      .ok (toBytesBE (ByteStream.hash sha256
          [0, 0, 0, 0, 0, 0, 0, 10, 0, 0, 0, 0, 0, 0, 0, 20,
           0, 0, 0, 0, 0, 0, 0, 30]) 8 ++
        ([0, 0, 0, 24] ++ ([0, 0, 2] ++ ([0, 3] ++ [10, 20, 30])))) := by
  have h := STFArray.serialize_int_ok sha256 (some 1) (fun _ => []) [10, 20, 30]
    (by decide) (by decide) (by decide) (by decide)
  rw [h]
  have e1 : encodeInts 8 [10, 20, 30] =
      [0, 0, 0, 0, 0, 0, 0, 10, 0, 0, 0, 0, 0, 0, 0, 20,
       0, 0, 0, 0, 0, 0, 0, 30] := by decide
  have e2 : toBytesBE (([10, 20, 30] : List Nat).length * 8) 4 = [0, 0, 0, 24] := by
    decide
  have e3 : toBytesBE 2 3 = [0, 0, 2] := by decide
  have e4 : toBytesBE (([10, 20, 30] : List Nat).length) 2 = [0, 3] := by decide
  have e5 : encodeInts ((some 1).getD Configuration.INT_SIZE) [10, 20, 30] =
      [10, 20, 30] := by decide
  simp only [e1, e2, e3, e4, e5]

/-! ## Round-trip machinery for the integer array -/

/-- Inversion of `convert` on an integer item: success forces the value
to fit and fixes the bytes. -/
theorem ByteStream.convert_int_inv {v : Nat} {la : Option Nat}
    {encode : String → List Nat} {bs : List Nat}
    (h : ByteStream.convert (.int v) la encode = .ok bs) :
    v < 256 ^ (la.getD Configuration.INT_SIZE) ∧
    bs = toBytesBE v (la.getD Configuration.INT_SIZE) := by
  by_cases hv : v < 256 ^ (la.getD Configuration.INT_SIZE)
  · rw [ByteStream.convert_int_ok v la encode hv] at h
    exact ⟨hv, by simpa using h.symm⟩
  · exfalso
    simp [ByteStream.convert, Convertable.isinstance_int, Convertable.toInt,
      int_to_bytes, hv] at h

/-- Inversion of `STFArray.data` over integer elements. -/
theorem STFArray.data_int_inv {la : Option Nat} {encode : String → List Nat}
    {xs : List Nat} {pl : List Nat}
    (h : STFArray.data la encode (xs.map Convertable.int) = .ok pl) :
    (∀ x ∈ xs, x < 256 ^ (la.getD Configuration.INT_SIZE)) ∧
    pl = encodeInts (la.getD Configuration.INT_SIZE) xs := by
  induction xs generalizing pl with
  | nil =>
    refine ⟨by simp, ?_⟩
    simpa [STFArray.data, encodeInts] using h.symm
  | cons x xs ih =>
    cases hc : ByteStream.convert (.int x) la encode with
    | error e =>
      simp [List.map_cons, STFArray.data, hc] at h
    | ok bs0 =>
      cases hd : STFArray.data la encode (xs.map Convertable.int) with
      | error e =>
        simp [List.map_cons, STFArray.data, hc, hd] at h
      | ok rest =>
        simp only [List.map_cons, STFArray.data, hc, hd, Except.ok.injEq] at h
        obtain ⟨hx, hbs⟩ := ByteStream.convert_int_inv hc
        obtain ⟨hfit, hrest⟩ := ih hd
        refine ⟨?_, ?_⟩
        · intro y hy
          rcases List.mem_cons.mp hy with hy | hy
          · exact hy ▸ hx
          · exact hfit y hy
        · rw [← h, hbs, hrest, encodeInts]

/-- Success of the header computation forces the size and count fields
to fit their widths. -/
theorem STFObject.header_int_fits {sha256 : List Nat → Nat}
    {encode : String → List Nat} {xs : List Nat} {d0 hdr : List Nat}
    (hh : STFObject.header sha256 STFObject.max_field_size
        STFObject.max_metadata_size true d0
        (STFArray.metadata (xs.map Convertable.int) encode) encode = .ok hdr) :
    d0.length < 256 ^ 4 ∧ xs.length < 256 ^ 2 := by
  cases hhb : ByteStream.convert (.int (ByteStream.hash sha256 d0)) none encode with
  | error e => simp [STFObject.header, hhb] at hh
  | ok hb =>
    cases hsb : ByteStream.convert (.int d0.length)
        (some STFObject.max_field_size) encode with
    | error e => simp [STFObject.header, hhb, hsb] at hh
    | ok sb =>
      cases hmeta : STFArray.metadata (xs.map Convertable.int) encode with
      | error e => simp [STFObject.header, hhb, hsb, hmeta] at hh
      | ok meta =>
        obtain ⟨hs, -⟩ := ByteStream.convert_int_inv hsb
        have h2 := hmeta
        simp only [STFArray.metadata] at h2
        obtain ⟨hcnt, -⟩ := ByteStream.convert_int_inv h2
        constructor
        · simpa [STFObject.max_field_size] using hs
        · simpa [STFObject.max_elem_field_width] using hcnt

/-- Success of `STFArray.serialize` over integers forces every field it
writes to fit its width. -/
theorem STFArray.serialize_int_fits {sha256 : List Nat → Nat} {la : Option Nat}
    {encode : String → List Nat} {xs : List Nat} {bs : List Nat}
    (h : STFArray.serialize sha256 la encode (xs.map Convertable.int) = .ok bs) :
    (∀ x ∈ xs, x < 256 ^ 8) ∧
    (∀ x ∈ xs, x < 256 ^ (la.getD Configuration.INT_SIZE)) ∧
    xs.length * 8 < 256 ^ 4 ∧ xs.length < 256 ^ 2 := by
  cases hd0 : STFArray.data none encode (xs.map Convertable.int) with
  | error e => simp [STFArray.serialize, hd0] at h
  | ok d0 =>
    obtain ⟨hfit8, hd0eq⟩ := STFArray.data_int_inv hd0
    cases hh : STFObject.header sha256 STFObject.max_field_size
        STFObject.max_metadata_size true d0
        (STFArray.metadata (xs.map Convertable.int) encode) encode with
    | error e => simp [STFArray.serialize, hd0, hh] at h
    | ok hdr =>
      cases hdla : STFArray.data la encode (xs.map Convertable.int) with
      | error e => simp [STFArray.serialize, hd0, hh, hdla] at h
      | ok pl =>
        obtain ⟨hfit, -⟩ := STFArray.data_int_inv hdla
        obtain ⟨hs, hcnt⟩ := STFObject.header_int_fits hh
        refine ⟨by simpa [Configuration.INT_SIZE] using hfit8, hfit, ?_, hcnt⟩
        have hlen : d0.length = xs.length * 8 := by
          rw [hd0eq]; simp [Configuration.INT_SIZE]
        rw [hlen] at hs
        exact hs

/-- The deserialize loop reads back the encoded elements sitting at the
cursor, in order, consuming exactly their bytes. -/
theorem STFArray.deserializeElems_ok (la : Option Nat) (decode : List Nat → String)
    (fuel : Nat) (xs : List Nat) (bs post : List Nat) (p : Nat)
    (hfit : ∀ x ∈ xs, x < 256 ^ (la.getD Configuration.INT_SIZE))
    (hsplit : bs.drop p = encodeInts (la.getD Configuration.INT_SIZE) xs ++ post) :
    STFArray.deserializeElems la decode fuel xs.length ⟨bs, p⟩ =
      (.ok (xs.map Convertable.int),
       ⟨bs, p + xs.length * (la.getD Configuration.INT_SIZE)⟩) := by
  induction xs generalizing p with
  | nil => simp [STFArray.deserializeElems]
  | cons x xs ih =>
    have hx := hfit x (by simp)
    have hsplit1 : bs.drop p = toBytesBE x (la.getD Configuration.INT_SIZE) ++
        (encodeInts (la.getD Configuration.INT_SIZE) xs ++ post) := by
      simpa [encodeInts, List.append_assoc] using hsplit
    have r1 := ByteStream.read_int_block bs
      (encodeInts (la.getD Configuration.INT_SIZE) xs ++ post) p hx hsplit1
    have hsplit2 : bs.drop (p + la.getD Configuration.INT_SIZE) =
        encodeInts (la.getD Configuration.INT_SIZE) xs ++ post := by
      have hdd : bs.drop (p + la.getD Configuration.INT_SIZE) =
          (bs.drop p).drop (la.getD Configuration.INT_SIZE) :=
        (List.drop_drop _ _ _).symm
      rw [hdd, hsplit1]
      exact List.drop_left' (toBytesBE_length x _)
    have ih' := ih (p + la.getD Configuration.INT_SIZE)
      (fun y hy => hfit y (List.mem_cons_of_mem x hy)) hsplit2
    have harith : p + la.getD Configuration.INT_SIZE +
        xs.length * la.getD Configuration.INT_SIZE =
        p + (xs.length + 1) * la.getD Configuration.INT_SIZE := by ring
    simp only [List.length_cons, STFArray.deserializeElems, ByteStream.deconvert,
      STFArray.get_generic_content, ConvertableTypes.issubclass_int, if_true, r1,
      stBind_ok, ih', List.map_cons]
    rw [harith]

/-- Stepping a drop-decomposition of the buffer past one block. -/
theorem List.drop_step {bs block tail : List Nat} {p n : Nat}
    (h : bs.drop p = block ++ tail) (hb : block.length = n) :
    bs.drop (p + n) = tail := by
  have hdd : bs.drop (p + n) = (bs.drop p).drop n := (List.drop_drop _ _ _).symm
  rw [hdd, h, ← hb, List.drop_left]

/-! ## C1 -/

/-- C1: whenever serialization of an integer array succeeds (the claim's
"valid instance" with the chosen encoding arguments), deserializing its
output with the same forwarded encoding arguments returns exactly the
same elements in the same order, consuming the whole buffer. The stored
hash and size fields are not consulted on the way back, so the round
trip holds even though the header describes the default-width
encoding. -/
theorem stfarray_serialize_deserialize_roundtrip
    (sha256 : List Nat → Nat) (la : Option Nat) (encode : String → List Nat)
    (decode : List Nat → String) (fuel : Nat) (xs bs : List Nat)
    (h : STFArray.serialize sha256 la encode (xs.map Convertable.int) = .ok bs) :
    STFArray.deserialize la decode fuel ⟨bs, 0⟩ =
      (.ok (xs.map Convertable.int), ⟨bs, bs.length⟩) := by
  obtain ⟨hfit8, hfit, hsize, hcount⟩ := STFArray.serialize_int_fits h
  rw [STFArray.serialize_int_ok sha256 la encode xs hfit8 hfit hsize hcount] at h
  have hbs : bs = toBytesBE (ByteStream.hash sha256 (encodeInts 8 xs)) 8 ++
      (toBytesBE (xs.length * 8) 4 ++ (toBytesBE 2 3 ++
      (toBytesBE xs.length 2 ++
       encodeInts (la.getD Configuration.INT_SIZE) xs))) := by
    simpa using h.symm
  subst hbs
  have hhash := ByteStream.hash_lt sha256 (encodeInts 8 xs)
  have hd0 : (toBytesBE (ByteStream.hash sha256 (encodeInts 8 xs)) 8 ++
      (toBytesBE (xs.length * 8) 4 ++ (toBytesBE 2 3 ++
      (toBytesBE xs.length 2 ++
       encodeInts (la.getD Configuration.INT_SIZE) xs)))).drop 0 =
      toBytesBE (ByteStream.hash sha256 (encodeInts 8 xs)) 8 ++
      (toBytesBE (xs.length * 8) 4 ++ (toBytesBE 2 3 ++
      (toBytesBE xs.length 2 ++
       encodeInts (la.getD Configuration.INT_SIZE) xs))) := List.drop_zero _
  have hd8 : (toBytesBE (ByteStream.hash sha256 (encodeInts 8 xs)) 8 ++
      (toBytesBE (xs.length * 8) 4 ++ (toBytesBE 2 3 ++
      (toBytesBE xs.length 2 ++
       encodeInts (la.getD Configuration.INT_SIZE) xs)))).drop 8 =
      toBytesBE (xs.length * 8) 4 ++ (toBytesBE 2 3 ++
      (toBytesBE xs.length 2 ++
       encodeInts (la.getD Configuration.INT_SIZE) xs)) := by
    have hstep := List.drop_step hd0 (toBytesBE_length _ _)
    rwa [Nat.zero_add] at hstep
  have hd12 := List.drop_step hd8 (toBytesBE_length _ _)
  have hd15 := List.drop_step hd12 (toBytesBE_length _ _)
  have hd17 := List.drop_step hd15 (toBytesBE_length _ _)
  norm_num at hd12 hd15 hd17
  have r1 := ByteStream.read_int_block _ _ 0 (by simpa [Configuration.INT_SIZE] using hhash) hd0
  have r2 := ByteStream.read_int_block _ _ 8 hsize hd8
  have r3 := ByteStream.read_int_block _ _ 12 (show (2 : Nat) < 256 ^ 3 by norm_num) hd12
  have r4 := ByteStream.read_block _ _ _ 15 hd15
  rw [toBytesBE_length] at r4
  have r5 := ByteStream.read_int_block (toBytesBE xs.length 2) [] 0 hcount
    (by simp)
  norm_num at r1 r2 r3 r4 r5
  have hloop := STFArray.deserializeElems_ok la decode fuel xs _ [] 17 hfit
    (by simpa using hd17)
  simp only [Configuration.INT_SIZE] at r1 r2 r3 r4 r5 hloop
  simp only [STFArray.deserialize, STFObject.read_header, Configuration.INT_SIZE,
    STFObject.max_field_size, STFObject.max_metadata_size,
    STFObject.max_elem_field_width, r1, r2, r3, r4, r5, stBind_ok, if_true, hloop]
  have hlen : (toBytesBE (ByteStream.hash sha256 (encodeInts 8 xs)) 8 ++
      (toBytesBE (xs.length * 8) 4 ++ (toBytesBE 2 3 ++
      (toBytesBE xs.length 2 ++
       encodeInts (la.getD Configuration.INT_SIZE) xs)))).length =
      17 + xs.length * (la.getD Configuration.INT_SIZE) := by
    simp [List.length_append, toBytesBE_length, encodeInts_length]
    ring
  simp only [Configuration.INT_SIZE] at hlen
  rw [hlen]

/-- Witness for C1: the spec's `[10, 20, 30]` array with 1-byte element
width round-trips through the 20-byte serialized form. -/
theorem stfarray_serialize_deserialize_roundtrip_witness :
    STFArray.deserialize (some 1) (fun _ => ("")) 0
        ⟨[0, 0, 0, 0, 0, 0, 0, 0, 0, 0, 0, 24, 0, 0, 2, 0, 3, 10, 20, 30], 0⟩ =
      (.ok ([10, 20, 30].map Convertable.int),
       ⟨[0, 0, 0, 0, 0, 0, 0, 0, 0, 0, 0, 24, 0, 0, 2, 0, 3, 10, 20, 30], 20⟩) :=
  stfarray_serialize_deserialize_roundtrip (fun _ => 0) (some 1) (fun _ => [])
    (fun _ => ("")) 0 [10, 20, 30]
    [0, 0, 0, 0, 0, 0, 0, 0, 0, 0, 0, 24, 0, 0, 2, 0, 3, 10, 20, 30] (by decide)

/-- A zero-byte scan that finds the terminator exactly at the cursor
makes `read_str(0)` recurse on unchanged state, so every recursion
budget ends in the recursion error with the stream untouched. -/
theorem read_str_terminator_at_cursor (decode : List Nat → String)
    (bs : List Nat) (p : Nat)
    (hz : (bs.drop p).findIdx? (fun b => b == 0) = some 0) :
    ∀ fuel, ByteStream.read_str decode fuel 0 ⟨bs, p⟩ =
      (.error .recursionError, ⟨bs, p⟩) := by
  intro fuel
  induction fuel with
  | zero => rfl
  | succ n ih =>
    have hstep : ByteStream.read_str decode (n + 1) 0 ⟨bs, p⟩ =
        match (bs.drop p).findIdx? (fun b => b == 0) with
        | none => (.error .unboundString, ⟨bs, p⟩)
        | some zero_index =>
          stBind (ByteStream.read_str decode n zero_index ⟨bs, p⟩) (fun result s =>
            stBind (s.read 1) fun _ s => (.ok result, s)) := rfl
    rw [hstep, hz]
    simp only [ih, stBind_error]

/-- Counterexample to C1 as stated: the law does not extend to every
concrete array type. The string-element array `[""]` is constructible
through the public API and serializes successfully (the payload is the
single terminator byte `0x00`), but deserializing that output through
the string instantiation diverges in `read_str` — the terminator sits at
the cursor — and dies with the recursion error under Python's default
budget of 1000 frames instead of yielding a value equal to the array. -/
theorem stfarray_str_roundtrip_fails :
    STFArray.serialize (fun _ => 0) none (fun v => v.data.map Char.toNat)
        [Convertable.str ("")] =
      .ok [0, 0, 0, 0, 0, 0, 0, 0, 0, 0, 0, 1, 0, 0, 2, 0, 1, 0] ∧
    (STFArrayStr.deserialize none (fun _ => ("")) 1000
        ⟨[0, 0, 0, 0, 0, 0, 0, 0, 0, 0, 0, 1, 0, 0, 2, 0, 1, 0], 0⟩).1 =
      .error .recursionError := by
  constructor
  · decide
  · have hrs := read_str_terminator_at_cursor (fun _ => (""))
      [0, 0, 0, 0, 0, 0, 0, 0, 0, 0, 0, 1, 0, 0, 2, 0, 1, 0] 17 (by decide) 1000
    have hh : STFObject.read_header STFObject.max_field_size
        STFObject.max_metadata_size true
        ⟨[0, 0, 0, 0, 0, 0, 0, 0, 0, 0, 0, 1, 0, 0, 2, 0, 1, 0], 0⟩ =
        (.ok ⟨0, 1, ⟨[0, 1], 0⟩⟩,
         ⟨[0, 0, 0, 0, 0, 0, 0, 0, 0, 0, 0, 1, 0, 0, 2, 0, 1, 0], 17⟩) := by
      decide
    have hmetar : ByteStream.read_int ⟨[0, 1], 0⟩
        STFObject.max_elem_field_width .big = (.ok 1, ⟨[0, 1], 2⟩) := by decide
    have hdc : ByteStream.deconvert
        ⟨[0, 0, 0, 0, 0, 0, 0, 0, 0, 0, 0, 1, 0, 0, 2, 0, 1, 0], 17⟩
        STFArrayStr.get_generic_content none (fun _ => ("")) 1000 =
        (.error .recursionError,
         ⟨[0, 0, 0, 0, 0, 0, 0, 0, 0, 0, 0, 1, 0, 0, 2, 0, 1, 0], 17⟩) := by
      simp [ByteStream.deconvert, STFArrayStr.get_generic_content,
        ConvertableTypes.issubclass_int, ConvertableTypes.issubclass_str, hrs]
    have hloop : STFArrayStr.deserializeElems none (fun _ => ("")) 1000 1
        ⟨[0, 0, 0, 0, 0, 0, 0, 0, 0, 0, 0, 1, 0, 0, 2, 0, 1, 0], 17⟩ =
        stBind (ByteStream.deconvert
            ⟨[0, 0, 0, 0, 0, 0, 0, 0, 0, 0, 0, 1, 0, 0, 2, 0, 1, 0], 17⟩
            STFArrayStr.get_generic_content none (fun _ => ("")) 1000)
          (fun x s =>
            stBind (STFArrayStr.deserializeElems none (fun _ => ("")) 1000 0 s)
              fun xs s => (.ok (x :: xs), s)) := rfl
    simp only [STFArrayStr.deserialize, hh, stBind_ok, hmetar, hloop, hdc,
      stBind_error]

/-! ## C8 -/

/-- C8: for an object with metadata whose data length fits the
`max_field_size` field and whose metadata length fits the
`max_metadata_size` field, `header()` succeeds, and `read_header` applied
to the header bytes followed by any suffix returns exactly
`Header(hash = content hash of data(), size = byte length of data(),
metadata = metadata())` and moves the cursor exactly past the header
(8 + mfs + mms + metadata-length bytes), no more and no less. -/
theorem header_read_header_roundtrip (sha256 : List Nat → Nat) (mfs mms : Nat)
    (encode : String → List Nat) (dataBytes metaBytes suffix : List Nat)
    (hsize : dataBytes.length < 256 ^ mfs)
    (hmeta : metaBytes.length < 256 ^ mms) :
    STFObject.header sha256 mfs mms true dataBytes (.ok metaBytes) encode =
      .ok (toBytesBE (ByteStream.hash sha256 dataBytes) 8 ++
        (toBytesBE dataBytes.length mfs ++
        (toBytesBE metaBytes.length mms ++ metaBytes))) ∧
    STFObject.read_header mfs mms true
        ⟨(toBytesBE (ByteStream.hash sha256 dataBytes) 8 ++
          (toBytesBE dataBytes.length mfs ++
          (toBytesBE metaBytes.length mms ++ metaBytes))) ++ suffix, 0⟩ =
      (.ok ⟨ByteStream.hash sha256 dataBytes, dataBytes.length, ⟨metaBytes, 0⟩⟩,
       ⟨(toBytesBE (ByteStream.hash sha256 dataBytes) 8 ++
          (toBytesBE dataBytes.length mfs ++
          (toBytesBE metaBytes.length mms ++ metaBytes))) ++ suffix,
        8 + mfs + mms + metaBytes.length⟩) := by
  have hhash := ByteStream.hash_lt sha256 dataBytes
  have h1 := ByteStream.convert_int_ok (ByteStream.hash sha256 dataBytes) none encode
    (by simpa using hhash)
  have h2 := ByteStream.convert_int_ok dataBytes.length (some mfs) encode
    (by simpa using hsize)
  have h3 := ByteStream.convert_int_ok metaBytes.length (some mms) encode
    (by simpa using hmeta)
  constructor
  · simp only [STFObject.header, h1, h2, h3, if_true, Option.getD_some,
      Configuration.INT_SIZE]
    simp [List.append_assoc]
  · have hform : (toBytesBE (ByteStream.hash sha256 dataBytes) 8 ++
        (toBytesBE dataBytes.length mfs ++
        (toBytesBE metaBytes.length mms ++ metaBytes))) ++ suffix =
        toBytesBE (ByteStream.hash sha256 dataBytes) 8 ++
        (toBytesBE dataBytes.length mfs ++
        (toBytesBE metaBytes.length mms ++ (metaBytes ++ suffix))) := by
      simp [List.append_assoc]
    rw [hform]
    have hd0 : (toBytesBE (ByteStream.hash sha256 dataBytes) 8 ++
        (toBytesBE dataBytes.length mfs ++
        (toBytesBE metaBytes.length mms ++ (metaBytes ++ suffix)))).drop 0 =
        toBytesBE (ByteStream.hash sha256 dataBytes) 8 ++
        (toBytesBE dataBytes.length mfs ++
        (toBytesBE metaBytes.length mms ++ (metaBytes ++ suffix))) := List.drop_zero _
    have hd8 : (toBytesBE (ByteStream.hash sha256 dataBytes) 8 ++
        (toBytesBE dataBytes.length mfs ++
        (toBytesBE metaBytes.length mms ++ (metaBytes ++ suffix)))).drop 8 =
        toBytesBE dataBytes.length mfs ++
        (toBytesBE metaBytes.length mms ++ (metaBytes ++ suffix)) := by
      have hstep := List.drop_step hd0 (toBytesBE_length _ _)
      rwa [Nat.zero_add] at hstep
    have hdm := List.drop_step hd8 (toBytesBE_length _ _)
    have hdmm := List.drop_step hdm (toBytesBE_length _ _)
    have r1 := ByteStream.read_int_block _ _ 0 (by simpa using hhash) hd0
    have r2 := ByteStream.read_int_block _ _ 8 hsize hd8
    have r3 := ByteStream.read_int_block _ _ (8 + mfs) hmeta hdm
    have r4 := ByteStream.read_block _ metaBytes suffix (8 + mfs + mms) hdmm
    simp only [Nat.zero_add] at r1
    simp only [STFObject.read_header, Configuration.INT_SIZE, r1, r2, r3, r4,
      stBind_ok, if_true]

/-- Witness for C8 at a concrete object: data `[1]`, metadata `[2, 3]`,
one suffix byte, and the default widths 4 and 3. -/
theorem header_read_header_roundtrip_witness :
    STFObject.header (fun _ => 0) 4 3 true [1] (.ok [2, 3]) (fun _ => []) =
      .ok [0, 0, 0, 0, 0, 0, 0, 0, 0, 0, 0, 1, 0, 0, 2, 2, 3] ∧
    STFObject.read_header 4 3 true
        ⟨[0, 0, 0, 0, 0, 0, 0, 0, 0, 0, 0, 1, 0, 0, 2, 2, 3, 9], 0⟩ =
      (.ok ⟨0, 1, ⟨[2, 3], 0⟩⟩,
       ⟨[0, 0, 0, 0, 0, 0, 0, 0, 0, 0, 0, 1, 0, 0, 2, 2, 3, 9], 17⟩) :=
  header_read_header_roundtrip (fun _ => 0) 4 3 (fun _ => []) [1] [2, 3] [9]
    (by decide) (by decide)

/-! ## C9 -/

/-- The operation `read` is congruent for streams that agree from the cursor onward:
same result and the agreement persists. -/
theorem ByteStream.read_sameTail {s1 s2 : ByteStream} (h : s1.sameTail s2)
    (n : Nat) :
    (s1.read n).1 = (s2.read n).1 ∧ (s1.read n).2.sameTail (s2.read n).2 := by
  obtain ⟨hp, hl, hd⟩ := h
  by_cases hn : n ≤ 0
  · simp only [ByteStream.read, if_pos hn]
    exact ⟨trivial, hp, hl, hd⟩
  · simp only [ByteStream.read, if_neg hn, ByteStream.length]
    by_cases hover : s1.pos + n > s1.data.length
    · rw [if_pos hover, if_pos (by rw [← hp, ← hl]; exact hover)]
      exact ⟨rfl, hp, hl, hd⟩
    · rw [if_neg hover, if_neg (by rw [← hp, ← hl]; exact hover)]
      have e1 : s1.data.drop (s1.pos + n) = (s1.data.drop s1.pos).drop n :=
        (List.drop_drop _ _ _).symm
      have e2 : s2.data.drop (s2.pos + n) = (s2.data.drop s2.pos).drop n :=
        (List.drop_drop _ _ _).symm
      refine ⟨by rw [hd], by simp [hp], by simpa using hl, ?_⟩
      show s1.data.drop (s1.pos + n) = s2.data.drop (s2.pos + n)
      rw [e1, hd, ← e2]

/-- The operation `read_int` is congruent for streams that agree from the cursor on. -/
theorem ByteStream.read_int_sameTail {s1 s2 : ByteStream} (h : s1.sameTail s2)
    (L : Nat) (bo : Byteorder) :
    (s1.read_int L bo).1 = (s2.read_int L bo).1 ∧
    (s1.read_int L bo).2.sameTail (s2.read_int L bo).2 := by
  obtain ⟨hf, hs⟩ := ByteStream.read_sameTail h L
  simp only [ByteStream.read_int]
  cases h1 : s1.read L with
  | mk f1 t1 =>
    cases h2 : s2.read L with
    | mk f2 t2 =>
      rw [h1, h2] at hf hs
      simp only at hf hs
      subst hf
      cases f1 with
      | error e => exact ⟨rfl, hs⟩
      | ok bs => exact ⟨rfl, hs⟩

/-- The deserialize element loop is congruent for streams that agree
from the cursor on. -/
theorem STFArray.deserializeElems_sameTail (la : Option Nat)
    (decode : List Nat → String) (fuel : Nat) (n : Nat) {s1 s2 : ByteStream}
    (h : s1.sameTail s2) :
    (STFArray.deserializeElems la decode fuel n s1).1 =
      (STFArray.deserializeElems la decode fuel n s2).1 ∧
    (STFArray.deserializeElems la decode fuel n s1).2.sameTail
      (STFArray.deserializeElems la decode fuel n s2).2 := by
  induction n generalizing s1 s2 with
  | zero => exact ⟨rfl, h⟩
  | succ n ih =>
    obtain ⟨hf, hs⟩ := ByteStream.read_int_sameTail h
      (la.getD Configuration.INT_SIZE) .big
    simp only [STFArray.deserializeElems, ByteStream.deconvert,
      STFArray.get_generic_content, ConvertableTypes.issubclass_int, if_true]
    cases h1 : s1.read_int (la.getD Configuration.INT_SIZE) .big with
    | mk f1 t1 =>
      cases h2 : s2.read_int (la.getD Configuration.INT_SIZE) .big with
      | mk f2 t2 =>
        rw [h1, h2] at hf hs
        simp only at hf hs
        subst hf
        cases f1 with
        | error e => exact ⟨rfl, hs⟩
        | ok v =>
          simp only [stBind_ok]
          obtain ⟨hf2, hs2⟩ := ih hs
          cases he1 : STFArray.deserializeElems la decode fuel n t1 with
          | mk g1 u1 =>
            cases he2 : STFArray.deserializeElems la decode fuel n t2 with
            | mk g2 u2 =>
              rw [he1, he2] at hf2 hs2
              simp only at hf2 hs2
              subst hf2
              cases g1 with
              | error e => exact ⟨rfl, hs2⟩
              | ok vs => exact ⟨rfl, hs2⟩

/-- C9: two input byte sequences that differ only in the 8-byte
content-hash field of the root header deserialize to the same outcome —
the same error, or equal element lists. The stored hash is read into the
`Header` value but never recomputed or compared, so it cannot influence
the reconstructed array. -/
theorem stfarray_deserialize_ignores_hash (la : Option Nat)
    (decode : List Nat → String) (fuel : Nat) (bs1 bs2 : List Nat)
    (hlen : bs1.length = bs2.length) (hdrop : bs1.drop 8 = bs2.drop 8) :
    (STFArray.deserialize la decode fuel ⟨bs1, 0⟩).1 =
      (STFArray.deserialize la decode fuel ⟨bs2, 0⟩).1 := by
  by_cases hover : 0 + 8 > bs1.length
  · have e1 : ByteStream.read ⟨bs1, 0⟩ 8 = (.error .overRead, ⟨bs1, 0⟩) := by
      simp only [ByteStream.read, ByteStream.length]
      rw [if_neg (by omega), if_pos (by simpa using hover)]
    have e2 : ByteStream.read ⟨bs2, 0⟩ 8 = (.error .overRead, ⟨bs2, 0⟩) := by
      simp only [ByteStream.read, ByteStream.length]
      rw [if_neg (by omega), if_pos (by rw [← hlen]; simpa using hover)]
    simp [STFArray.deserialize, STFObject.read_header, ByteStream.read_int,
      Configuration.INT_SIZE, e1, e2]
  · have r1 := ByteStream.read_of_le bs1 0 8 (by omega)
    have r2 := ByteStream.read_of_le bs2 0 8 (by rw [← hlen]; omega)
    have rr1 : ByteStream.read_int ⟨bs1, 0⟩ Configuration.INT_SIZE .big =
        (.ok (int_from_bytes (bs1.take 8) .big), ⟨bs1, 8⟩) := by
      simp [Configuration.INT_SIZE, ByteStream.read_int, r1]
    have rr2 : ByteStream.read_int ⟨bs2, 0⟩ Configuration.INT_SIZE .big =
        (.ok (int_from_bytes (bs2.take 8) .big), ⟨bs2, 8⟩) := by
      simp [Configuration.INT_SIZE, ByteStream.read_int, r2]
    have hst : (⟨bs1, 8⟩ : ByteStream).sameTail ⟨bs2, 8⟩ :=
      ⟨rfl, hlen, by simpa using hdrop⟩
    simp only [STFArray.deserialize, STFObject.read_header, rr1, rr2, stBind_ok,
      if_true, STFObject.max_field_size, STFObject.max_metadata_size,
      STFObject.max_elem_field_width]
    obtain ⟨hf4, hs4⟩ := ByteStream.read_int_sameTail hst 4 .big
    cases h14 : ByteStream.read_int ⟨bs1, 8⟩ 4 .big with
    | mk f1 t1 =>
      cases h24 : ByteStream.read_int ⟨bs2, 8⟩ 4 .big with
      | mk f2 t2 =>
        rw [h14, h24] at hf4 hs4
        simp only at hf4 hs4
        subst hf4
        cases f1 with
        | error e => simp [stBind]
        | ok size =>
          simp only [stBind_ok]
          obtain ⟨hf3, hs3⟩ := ByteStream.read_int_sameTail hs4 3 .big
          cases h13 : t1.read_int 3 .big with
          | mk g1 u1 =>
            cases h23 : t2.read_int 3 .big with
            | mk g2 u2 =>
              rw [h13, h23] at hf3 hs3
              simp only at hf3 hs3
              subst hf3
              cases g1 with
              | error e => simp [stBind]
              | ok mlen =>
                simp only [stBind_ok]
                obtain ⟨hfm, hsm⟩ := ByteStream.read_sameTail hs3 mlen
                cases h1m : u1.read mlen with
                | mk m1 w1 =>
                  cases h2m : u2.read mlen with
                  | mk m2 w2 =>
                    rw [h1m, h2m] at hfm hsm
                    simp only at hfm hsm
                    subst hfm
                    cases m1 with
                    | error e => simp [stBind]
                    | ok metaBytes =>
                      simp only [stBind_ok]
                      cases hm : ByteStream.read_int ⟨metaBytes, 0⟩ 2 .big with
                      | mk q1 v1 =>
                        cases q1 with
                        | error e => rfl
                        | ok num =>
                          exact (STFArray.deserializeElems_sameTail la decode fuel
                            num hsm).1

/-- Witness for C9: two 19-byte buffers identical except for the hash
field (zeros vs nines) deserialize to the same outcome. -/
theorem stfarray_deserialize_ignores_hash_witness :
    (STFArray.deserialize (some 1) (fun _ => ("")) 0
        ⟨[0, 0, 0, 0, 0, 0, 0, 0, 0, 0, 0, 3, 0, 0, 2, 0, 2, 5, 6], 0⟩).1 =
    (STFArray.deserialize (some 1) (fun _ => ("")) 0
        ⟨[9, 9, 9, 9, 9, 9, 9, 9, 0, 0, 0, 3, 0, 0, 2, 0, 2, 5, 6], 0⟩).1 :=
  stfarray_deserialize_ignores_hash (some 1) (fun _ => ("")) 0
    [0, 0, 0, 0, 0, 0, 0, 0, 0, 0, 0, 3, 0, 0, 2, 0, 2, 5, 6]
    [9, 9, 9, 9, 9, 9, 9, 9, 0, 0, 0, 3, 0, 0, 2, 0, 2, 5, 6]
    (by decide) (by decide)
